import Mathlib

/-!
Verification development for the QR code generator / scan tracker.

The definitions below are a shallow embedding of the JavaScript source:
the rate limiter and Firebase tier selection (firebase-config section),
the SecurityUtils validator and CryptoManager vault, and the
QRRedirectManager redirect resolver.  Strings are Lean strings, byte
buffers are lists over an abstract byte type, the browser localStorage
is an association list, and the ambient host primitives (WebCrypto,
base64, TextEncoder, JSON, the URL constructor) are capability
parameters mirroring exactly how the source calls them.
-/

/-! # String helpers shared by the embedded code -/

/-- Lowercase a string character by character, modelling the JavaScript
String.toLowerCase call on the ASCII strings handled here. -/
def lowerStr (s : String) : String :=
  String.mk (s.data.map Char.toLower)

/-- Prefix test on character lists. -/
def listIsPre : List Char → List Char → Bool
  | [], _ => true
  | _ :: _, [] => false
  | a :: as, b :: bs => a == b && listIsPre as bs

/-- Occurrence of a pattern anywhere in a character list. -/
def listHasInfix (pat : List Char) : List Char → Bool
  | [] => listIsPre pat []
  | c :: cs => listIsPre pat (c :: cs) || listHasInfix pat cs

/-- Substring containment, modelling the JavaScript String.includes call. -/
def containsSubstr (s pat : String) : Bool :=
  listHasInfix pat.data s.data

/-- Suffix test on strings, modelling String.endsWith. -/
def strEndsWith (s suf : String) : Bool :=
  listIsPre suf.data.reverse s.data.reverse

/-- Whitespace trim from both ends, modelling the JavaScript trim
call. -/
def strTrim (s : String) : String :=
  String.mk
    (((s.data.dropWhile Char.isWhitespace).reverse.dropWhile Char.isWhitespace).reverse)

/-! # Firebase connectivity state and tier selection

Embedded from the firebase-config script: the module-level flags
firebaseInitialized and databaseAvailable (the latter driven by the
standing subscription to the .info/connected signal), the FirebaseStatus
monitor object, and the branch condition (typeof firebase !== 'undefined'
and window.database) with which every FirebaseManager operation picks
its storage tier. -/

/-- State of the host environment a FirebaseManager call observes: whether
the firebase global is defined, whether window.database is set, and the two
connectivity flags maintained by the initialization code and the standing
subscription to the .info/connected signal. -/
structure ConnState where
  firebaseDefined : Bool
  windowDatabase : Bool
  firebaseInitialized : Bool
  databaseAvailable : Bool
deriving DecidableEq

/-- Storage tier a FirebaseManager operation routes to. -/
inductive StorageTier where
  | remote
  | localEncrypted
deriving DecidableEq

/-- FirebaseStatus.isAvailable from the source. -/
def firebaseStatusIsAvailable (s : ConnState) : Bool :=
  s.firebaseInitialized && s.databaseAvailable

/-- FirebaseStatus.getStatus from the source. -/
def firebaseStatusGetStatus (s : ConnState) : String :=
  if !s.firebaseInitialized then "offline"
  else if !s.databaseAvailable then "disconnected"
  else "connected"

/-- Tier chosen by FirebaseManager.createQRCode: the source branches on
typeof firebase !== 'undefined' and window.database. -/
def createQRCodeTier (s : ConnState) : StorageTier :=
  if s.firebaseDefined && s.windowDatabase then .remote else .localEncrypted

/-- Tier chosen by FirebaseManager.getQRCode, same branch condition. -/
def getQRCodeTier (s : ConnState) : StorageTier :=
  if s.firebaseDefined && s.windowDatabase then .remote else .localEncrypted

/-- Tier chosen by FirebaseManager.incrementScanCount, same branch condition. -/
def incrementScanCountTier (s : ConnState) : StorageTier :=
  if s.firebaseDefined && s.windowDatabase then .remote else .localEncrypted

/-- Tier chosen by FirebaseManager.getRecentQRCodes, same branch condition. -/
def getRecentQRCodesTier (s : ConnState) : StorageTier :=
  if s.firebaseDefined && s.windowDatabase then .remote else .localEncrypted

/-! # Rate limiter

Embedded from the RateLimiter class: requests is a map from user id to the
list of admitted timestamps, maxRequests is 10 and timeWindow is 60000
milliseconds.  Timestamps are natural numbers; the JavaScript subtraction
now - time is truncated subtraction, which agrees with the source for the
monotone clock it is used with. -/

/-- Requests map of the RateLimiter instance. -/
def RLState := List (String × List Nat)

/-- Read a user's timestamp list, this.requests.get(userId) with default. -/
def rlGet (st : RLState) (uid : String) : List Nat :=
  (((st.find? (fun p => p.1 == uid))).map (fun p => p.2)).getD []

/-- Write a user's timestamp list, this.requests.set(userId, l). -/
def rlSet (st : RLState) (uid : String) (l : List Nat) : RLState :=
  (uid, l) :: st.filter (fun p => !(p.1 == uid))

/-- RateLimiter.canMakeRequest from the source: filter the stored
timestamps down to those inside the window, reject (without writing)
when the limit is reached, otherwise record the call time. -/
def canMakeRequest (st : RLState) (now : Nat) (uid : String) : Bool × RLState :=
  let userRequests := rlGet st uid
  let recentRequests := userRequests.filter (fun time => decide (now - time < 60000))
  if recentRequests.length ≥ 10 then (false, st)
  else (true, rlSet st uid (recentRequests ++ [now]))

/-- RateLimiter.getRemainingRequests from the source; Math.max(0, -) is
the truncation already built into natural subtraction. -/
def getRemainingRequests (st : RLState) (now : Nat) (uid : String) : Nat :=
  let userRequests := rlGet st uid
  let recentRequests := userRequests.filter (fun time => decide (now - time < 60000))
  10 - recentRequests.length

/-- Run a sequence of canMakeRequest calls for one user at the given
times, collecting the admission results. -/
def runCalls (uid : String) : List Nat → RLState → List Bool × RLState
  | [], st => ([], st)
  | t :: ts, st =>
      let r := canMakeRequest st t uid
      let rest := runCalls uid ts r.2
      (r.1 :: rest.1, rest.2)

/-! # Input validator

Embedded from SecurityUtils.validateQRInput: length checks in source
order, then the malicious-pattern blacklist applied to text and name.
The regular expressions of the source are of two shapes: a
case-insensitive plain substring, and a case-insensitive tag pattern
like an open angle bracket, a tag word, any run of characters other
than a closing angle bracket, then a closing angle bracket; the latter
matches exactly when the lowered input contains the open bracket plus
tag word followed eventually by a closing bracket. -/

/-- Matcher for the tag-shaped blacklist regexes: somewhere in the
character list there is an occurrence of the open bracket followed by
the tag word, with a closing angle bracket somewhere after it. -/
def tagOpenMatch (tag : List Char) : List Char → Bool
  | [] => false
  | c :: cs =>
      (listIsPre ('<' :: tag) (c :: cs)
        && ((c :: cs).drop (tag.length + 1)).contains '>')
      || tagOpenMatch tag cs

/-- Blacklist of SecurityUtils.validateQRInput applied to one field,
matching the seven maliciousPatterns regexes case-insensitively. -/
def maliciousMatch (s : String) : Bool :=
  let l := (lowerStr s).data
  tagOpenMatch "script".data l
  || listHasInfix "javascript:".data l
  || listHasInfix "data:text/html".data l
  || listHasInfix "vbscript:".data l
  || tagOpenMatch "iframe".data l
  || tagOpenMatch "object".data l
  || tagOpenMatch "embed".data l

/-- Errors thrown by SecurityUtils.validateQRInput, one constructor per
throw site in source order. -/
inductive ValidationError where
  | emptyText
  | textTooLong
  | emptyName
  | nameTooLong
  | invalidText
  | invalidName
deriving DecidableEq

/-- SecurityUtils.validateQRInput from the source: the emptiness check
covers the falsy-input guard, the length checks use the raw length, and
the pattern blacklist runs on text and then name. -/
def validateQRInput (text name : String) : Except ValidationError Unit :=
  if ((strTrim text).length = 0 : Bool) then .error .emptyText
  else if (text.length > 4000 : Bool) then .error .textTooLong
  else if ((strTrim name).length = 0 : Bool) then .error .emptyName
  else if (name.length > 100 : Bool) then .error .nameTooLong
  else if maliciousMatch text then .error .invalidText
  else if maliciousMatch name then .error .invalidName
  else .ok ()

/-! # Crypto vault

Embedded from SecurityUtils.CryptoManager.  The browser localStorage is
an association list from slot names to strings.  The ambient host
primitives the vault calls are collected in a capability record: JSON
serialization of the stored values, TextEncoder and TextDecoder between
strings and byte lists, AES-GCM encrypt and decrypt keyed by the
exported key string, and base64.  Each call-time random or generated
quantity (the would-be fresh key, the fresh twelve-byte nonce) is an
explicit argument. -/

/-- Browser localStorage: ordered association list of slot name and
stored string. -/
def Store := List (String × String)

/-- localStorage.getItem. -/
def lsGet (st : Store) (k : String) : Option String :=
  ((st.find? (fun p => p.1 == k))).map (fun p => p.2)

/-- localStorage.setItem: replaces any previous binding of the slot. -/
def lsSet (st : Store) (k v : String) : Store :=
  (k, v) :: st.filter (fun p => !(p.1 == k))

/-- localStorage.removeItem. -/
def lsRemove (st : Store) (k : String) : Store :=
  st.filter (fun p => !(p.1 == k))

/-- Host primitives used by the vault, abstracted as capabilities the
way the source calls them: ser and deser are JSON.stringify and
JSON.parse at the stored value type, strEncode and strDecode are
TextEncoder.encode and TextDecoder.decode, enc and dec are the AES-GCM
encrypt and decrypt calls keyed by the exported key material, b64e and
b64d are btoa and atob composed with the byte-to-char conversions.
Bytes are lists over an abstract byte type. -/
structure CryptoEnv (α β : Type) where
  ser : α → String
  deser : String → Option α
  strEncode : String → List β
  strDecode : List β → String
  enc : String → List β → List β → List β
  dec : String → List β → List β → Option (List β)
  b64e : List β → String
  b64d : String → Option (List β)

/-- CryptoManager.getOrCreateKey: reuse the persisted key material from
the well-known slot, or persist the freshly generated key and use it.
The freshKey argument stands for the exported form of the key the
WebCrypto generateKey call would produce at this call. -/
def getOrCreateKey (st : Store) (freshKey : String) : String × Store :=
  match lsGet st "app_crypto_key_v2" with
  | some keyData => (keyData, st)
  | none => (freshKey, lsSet st "app_crypto_key_v2" freshKey)

/-- CryptoManager.setItem happy path: serialize, encrypt under the
device key with the fresh twelve-byte nonce, store nonce plus
ciphertext base64-encoded in the encrypted-prefixed slot. -/
def cmSetItem {α β : Type} (env : CryptoEnv α β) (freshKey : String) (iv : List β)
    (st : Store) (k : String) (v : α) : Store :=
  let p := getOrCreateKey st freshKey
  let cipher := env.enc p.1 iv (env.strEncode (env.ser v))
  lsSet p.2 ("encrypted_" ++ k) (env.b64e (iv ++ cipher))

/-- CryptoManager.getItem: try the encrypted slot first (split the first
twelve bytes off as the nonce, decrypt, parse); a base64, decryption or
parse failure is caught and yields none.  When no encrypted slot
exists, fall back to the legacy plaintext slot and migrate it: re-write
through setItem and delete the legacy slot.  Returns the value together
with the localStorage state the call leaves behind. -/
def cmGetItem {α β : Type} (env : CryptoEnv α β) (freshKey : String) (iv : List β)
    (st : Store) (k : String) : Option α × Store :=
  match lsGet st ("encrypted_" ++ k) with
  | some encrypted =>
      let p := getOrCreateKey st freshKey
      match env.b64d encrypted with
      | none => (none, p.2)
      | some combined =>
          match env.dec p.1 (combined.take 12) (combined.drop 12) with
          | none => (none, p.2)
          | some plain =>
              match env.deser (env.strDecode plain) with
              | none => (none, p.2)
              | some v => (some v, p.2)
  | none =>
      match lsGet st k with
      | some regular =>
          match env.deser regular with
          | none => (none, st)
          | some d => (some d, lsRemove (cmSetItem env freshKey iv st k d) k)
      | none => (none, st)

/-! # Record model and the local scan-count increment

Embedded from the FirebaseManager data shape and the local branch of
incrementScanCount.  The value stored in the qr-codes vault slot is the
JSON object mapping id to record, modelled as an association list. -/

/-- Persisted record per generated code, the qrData object of
FirebaseManager.createQRCode.  Fields the source leaves undefined on
some paths (logoPath, lastScanned) are options. -/
structure QRRecord where
  id : String
  name : String
  originalText : String
  logoPath : Option String
  scanCount : Nat
  createdAt : Nat
  lastScanned : Option Nat
deriving DecidableEq

/-- Record map stored under the qr-codes slot. -/
def RecordMap := List (String × QRRecord)

/-- Instance making record maps comparable in concrete checks. -/
instance : DecidableEq RecordMap := by
  unfold RecordMap
  infer_instance

/-- Field read localQRs of qrId. -/
def mapLookup (m : RecordMap) (qrId : String) : Option QRRecord :=
  ((m.find? (fun p => p.1 == qrId))).map (fun p => p.2)

/-- Field write localQRs of qrId. -/
def mapSet (m : RecordMap) (qrId : String) (r : QRRecord) : RecordMap :=
  (qrId, r) :: m.filter (fun p => !(p.1 == qrId))

/-- Local-tier branch of FirebaseManager.incrementScanCount: read the
record map through the vault, and only when the id is present bump its
scanCount, stamp lastScanned with the current time and write the map
back through the vault.  Returns the localStorage state the call leaves
behind. -/
def incrementScanCountLocal {β : Type} (env : CryptoEnv RecordMap β)
    (freshKey : String) (iv : List β) (now : Nat) (st : Store) (qrId : String) : Store :=
  let r := cmGetItem env freshKey iv st "qr-codes"
  let localQRs := r.1.getD []
  match mapLookup localQRs qrId with
  | some rec =>
      cmSetItem env freshKey iv r.2 "qr-codes"
        (mapSet localQRs qrId
          { rec with scanCount := rec.scanCount + 1, lastScanned := some now })
  | none => r.2

/-! # Redirect resolver

Embedded from the QRRedirectManager version that carries the URL
fallback payload.  The result of the browser URL constructor is
abstracted as a parse function returning the protocol (lowercased
scheme with trailing colon) and hostname; the concrete jsParseURL below
instantiates it for the simple absolute forms exercised by the
examples.  Each storage source the init method consults is a field of
the scan world: an Except models a throwing access, the inner Option a
clean miss. -/

/-- Parsed URL surface the resolver reads: protocol and hostname. -/
structure URLParts where
  protocol : String
  hostname : String
deriving DecidableEq

/-- Split a character list at the first occurrence of a separator,
returning the parts before and after it, or none when the separator
does not occur. -/
def splitOnSep (sep : List Char) : List Char → Option (List Char × List Char)
  | [] => none
  | c :: cs =>
      if listIsPre sep (c :: cs) then some ([], (c :: cs).drop sep.length)
      else
        match splitOnSep sep cs with
        | some p => some (c :: p.1, p.2)
        | none => none

/-- Modelled from the spec: the browser URL constructor, an external
host primitive out of the repository's source.  Restricted to the
simple absolute forms the examples exercise: a nonempty all-letter
scheme, the separator, a nonempty host read up to the first slash,
colon, question mark or hash.  The parsed protocol is the lowercased
scheme with the trailing colon, as the host object exposes it. -/
def jsParseURL (s : String) : Option URLParts :=
  match splitOnSep "://".data s.data with
  | none => none
  | some (scheme, rest) =>
      if scheme.isEmpty || !scheme.all Char.isAlpha then none
      else
        let host := rest.takeWhile (fun c =>
          !(c == '/') && !(c == ':') && !(c == '?') && !(c == '#'))
        if host.isEmpty then none
        else some { protocol := String.mk (scheme.map Char.toLower) ++ ":",
                    hostname := String.mk host }

/-- QRRedirectManager.isValidURL from the source, over an abstract URL
parse: a successful parse is navigable when the protocol is http or
https and the lowered raw string contains no blocked scheme substring; a
failed parse is retried with the https prefix when the raw string
contains one of the common TLD or www markers. -/
def isValidURL (parse : String → Option URLParts) (s : String) : Bool :=
  match parse s with
  | some url =>
      if !(url.protocol == "http:" || url.protocol == "https:") then false
      else
        let lowerString := lowerStr s
        if ["javascript:", "data:", "vbscript:", "file:", "ftp:"].any
            (fun pattern => containsSubstr lowerString pattern) then false
        else true
  | none =>
      if containsSubstr s ".com" || containsSubstr s ".org"
          || containsSubstr s ".net" || containsSubstr s "www." then
        match parse ("https://" ++ s) with
        | some _ => true
        | none => false
      else false

/-- QRRedirectManager.isWhitelistedDomain from the source: hostname of
the parsed URL, lowercased, matches an allowed domain exactly or as a
subdomain. -/
def isWhitelistedDomain (parse : String → Option URLParts) (url : String) : Bool :=
  let allowedDomains := ["meet.google.com", "zoom.us", "teams.microsoft.com",
    "webex.com", "gotomeeting.com", "youtube.com", "www.youtube.com",
    "docs.google.com", "drive.google.com"]
  match parse url with
  | some urlObj =>
      let hostname := lowerStr urlObj.hostname
      allowedDomains.any (fun domain =>
        hostname == domain || strEndsWith hostname ("." ++ domain))
  | none => false

/-- Outcome of QRRedirectManager.redirectToOriginal: a navigation, with
a flag recording whether the external-domain confirmation dialog was
shown first, or the text-content display page. -/
inductive DispatchOutcome where
  | navigated (prompted : Bool)
  | displayedText
deriving DecidableEq

/-- QRRedirectManager.redirectToOriginal from the source: navigable and
whitelisted navigates at once; navigable but not whitelisted asks the
user and either navigates or falls through to the content display; not
navigable displays the content. -/
def redirectToOriginal (parse : String → Option URLParts) (confirm : Bool)
    (originalText : String) : DispatchOutcome :=
  if isValidURL parse originalText then
    if isWhitelistedDomain parse originalText then .navigated false
    else if confirm then .navigated true
    else .displayedText
  else .displayedText

/-- Payload carried in the data query parameter of the link, the JSON
object the creator embeds when the remote tier is unavailable. -/
structure FallbackPayload where
  text : String
  name : String
  created : Nat
deriving DecidableEq

/-- Which source of the init method produced the record, mirroring the
dataSource variable of the source. -/
inductive DataSource where
  | firebase
  | encrypted
  | legacy
  | urlFallback
deriving DecidableEq

/-- Decidable equality for Except values, used by the concrete checks on
scan worlds. -/
instance {e a : Type} [DecidableEq e] [DecidableEq a] : DecidableEq (Except e a) :=
  fun x y =>
    match x, y with
    | .ok u, .ok v =>
        if h : u = v then isTrue (congrArg Except.ok h)
        else isFalse (fun hh => h (Except.ok.inj hh))
    | .error u, .error v =>
        if h : u = v then isTrue (congrArg Except.error h)
        else isFalse (fun hh => h (Except.error.inj hh))
    | .ok _, .error _ => isFalse (fun hh => Except.noConfusion hh)
    | .error _, .ok _ => isFalse (fun hh => Except.noConfusion hh)

/-- Environment one scan transaction of QRRedirectManager.init observes:
the id from the link, availability of the global managers, the result of
each storage access (an Except error models a throwing access, the inner
Option a clean miss), and the decoded data parameter when present. -/
structure ScanWorld where
  qrId : String
  firebaseAvailable : Bool
  firebaseResult : Except Unit (Option QRRecord)
  securityUtilsAvailable : Bool
  encryptedResult : Except Unit (Option QRRecord)
  legacyResult : Except Unit (Option QRRecord)
  fallbackData : Option (Except Unit FallbackPayload)
deriving DecidableEq

/-- First block of the init method: the Firebase read, guarded by the
availability of the manager, its throw caught and treated as a miss. -/
def tier1Result (w : ScanWorld) : Option QRRecord :=
  if w.firebaseAvailable then
    match w.firebaseResult with
    | .ok (some r) => some r
    | _ => none
  else none

/-- Second block of the init method: the encrypted localStorage read,
whose catch handler — and only it — tries the legacy unencrypted
localStorage.  A clean encrypted miss leaves the record unset without
touching the legacy tier, exactly as in the source. -/
def tier23Result (w : ScanWorld) : Option (QRRecord × DataSource) :=
  if w.securityUtilsAvailable then
    match w.encryptedResult with
    | .ok (some r) => some (r, .encrypted)
    | .ok none => none
    | .error _ =>
        match w.legacyResult with
        | .ok (some r) => some (r, .legacy)
        | _ => none
  else none

/-- Record the init method reconstructs from the URL fallback payload,
with scanCount zero and the undefined fields absent. -/
def payloadRecord (qrId : String) (p : FallbackPayload) : QRRecord :=
  { id := qrId, name := p.name, originalText := p.text, logoPath := none,
    scanCount := 0, createdAt := p.created, lastScanned := none }

/-- Resolution phase of QRRedirectManager.init: Firebase first, then the
encrypted read with its catch-only legacy fallback, then the URL
payload; each later block runs only while no record has been found. -/
def resolveQRData (w : ScanWorld) : Option (QRRecord × DataSource) :=
  match tier1Result w with
  | some r => some (r, .firebase)
  | none =>
      match tier23Result w with
      | some x => some x
      | none =>
          match w.fallbackData with
          | some (.ok p) => some (payloadRecord w.qrId p, .urlFallback)
          | _ => none

/-- Terminal outcome of one scan transaction of the init method. -/
inductive InitOutcome where
  | errorShown
  | dispatched (o : DispatchOutcome)
deriving DecidableEq

/-- QRRedirectManager.init after the id check: resolve the record, show
the not-found error when every source missed, otherwise attempt the
scan-count increment inside its own try block whose catch only logs, and
dispatch on the original text.  The incrementResult argument is the
outcome of that attempt. -/
def resolverInit (w : ScanWorld) (incrementResult : Except Unit Unit)
    (parse : String → Option URLParts) (confirm : Bool) : InitOutcome :=
  match resolveQRData w with
  | none => .errorShown
  | some (r, _) =>
      match incrementResult with
      | .ok _ => .dispatched (redirectToOriginal parse confirm r.originalText)
      | .error _ => .dispatched (redirectToOriginal parse confirm r.originalText)

/-! # Association-list lemmas

Shared facts about lookup, replacing write and removal on the
association lists used for localStorage, the rate limiter map and the
record map. -/

/-- Lookup for a key different from the removed one passes through the
removal filter. -/
theorem find?_filter_ne {γ : Type} (st : List (String × γ)) (k k' : String) (h : k' ≠ k) :
    List.find? (fun p => p.1 == k') (st.filter (fun p => !(p.1 == k)))
      = List.find? (fun p => p.1 == k') st := by
  induction st with
  | nil => rfl
  | cons a l ih =>
      by_cases hk : a.1 = k
      · have h1 : (a.1 == k) = true := beq_iff_eq.mpr hk
        have h2 : (a.1 == k') = false := by
          rw [beq_eq_false_iff_ne]; rw [hk]; exact fun hh => h hh.symm
        simp [List.filter_cons, h1, List.find?_cons, h2, ih]
      · have h1 : (a.1 == k) = false := beq_eq_false_iff_ne.mpr hk
        by_cases hk' : a.1 = k'
        · have h2 : (a.1 == k') = true := beq_iff_eq.mpr hk'
          simp [List.filter_cons, h1, List.find?_cons, h2]
        · have h2 : (a.1 == k') = false := beq_eq_false_iff_ne.mpr hk'
          simp [List.filter_cons, h1, List.find?_cons, h2, ih]

/-- Lookup of the removed key finds nothing. -/
theorem find?_filter_self {γ : Type} (st : List (String × γ)) (k : String) :
    List.find? (fun p => p.1 == k) (st.filter (fun p => !(p.1 == k))) = none := by
  induction st with
  | nil => rfl
  | cons a l ih =>
      by_cases hk : a.1 = k
      · have h1 : (a.1 == k) = true := beq_iff_eq.mpr hk
        simp [List.filter_cons, h1, ih]
      · have h1 : (a.1 == k) = false := beq_eq_false_iff_ne.mpr hk
        simp [List.filter_cons, h1, List.find?_cons, ih]

/-- Filtering for the removed key after the removal filter yields the
empty list. -/
theorem filter_filter_self {γ : Type} (st : List (String × γ)) (k : String) :
    (st.filter (fun p => !(p.1 == k))).filter (fun p => p.1 == k) = [] := by
  induction st with
  | nil => rfl
  | cons a l ih =>
      by_cases hk : a.1 = k
      · have h1 : (a.1 == k) = true := beq_iff_eq.mpr hk
        simp [List.filter_cons, h1, ih]
      · have h1 : (a.1 == k) = false := beq_eq_false_iff_ne.mpr hk
        simp [List.filter_cons, h1, ih]

/-- Filtering for a key different from the removed one is unaffected by
the removal filter. -/
theorem filter_filter_ne {γ : Type} (st : List (String × γ)) (k k' : String) (h : k' ≠ k) :
    (st.filter (fun p => !(p.1 == k))).filter (fun p => p.1 == k')
      = st.filter (fun p => p.1 == k') := by
  induction st with
  | nil => rfl
  | cons a l ih =>
      by_cases hk : a.1 = k
      · have h1 : (a.1 == k) = true := beq_iff_eq.mpr hk
        have h2 : (a.1 == k') = false := by
          rw [beq_eq_false_iff_ne]; rw [hk]; exact fun hh => h hh.symm
        simp [List.filter_cons, h1, h2, ih]
      · have h1 : (a.1 == k) = false := beq_eq_false_iff_ne.mpr hk
        simp [List.filter_cons, h1, ih]

/-- Reading back the slot just written. -/
theorem lsGet_set_self (st : Store) (k v : String) : lsGet (lsSet st k v) k = some v := by
  simp [lsGet, lsSet, List.find?_cons]

/-- Reading a different slot is unaffected by a write. -/
theorem lsGet_set_ne (st : Store) (k v k' : String) (h : k' ≠ k) :
    lsGet (lsSet st k v) k' = lsGet st k' := by
  have h2 : (k == k') = false := by
    rw [beq_eq_false_iff_ne]; exact fun hh => h hh.symm
  simp [lsGet, lsSet, List.find?_cons, h2, find?_filter_ne st k k' h]

/-- Reading the slot just removed finds nothing. -/
theorem lsGet_remove_self (st : Store) (k : String) : lsGet (lsRemove st k) k = none := by
  simp [lsGet, lsRemove, find?_filter_self]

/-- Reading a different slot is unaffected by a removal. -/
theorem lsGet_remove_ne (st : Store) (k k' : String) (h : k' ≠ k) :
    lsGet (lsRemove st k) k' = lsGet st k' := by
  simp [lsGet, lsRemove, find?_filter_ne st k k' h]

/-- After a write, the written slot occurs exactly once. -/
theorem filter_set_self (st : Store) (k v : String) :
    (lsSet st k v).filter (fun p => p.1 == k) = [(k, v)] := by
  simp [lsSet, List.filter_cons, filter_filter_self]

/-- Slot names never collide with the key slot: every encrypted slot
name starts with the letter e while the key slot starts with a. -/
theorem enc_ne_keyslot (k : String) : ("encrypted_" ++ k) ≠ "app_crypto_key_v2" := by
  intro h
  have h2 := congrArg (fun s => s.data.head?) h
  simp only [] at h2
  have h3 : ("encrypted_" ++ k).data.head? = some 'e' := by cases k with | mk d => rfl
  rw [h3] at h2
  exact absurd h2 (by decide)

/-- The encrypted slot name of a key differs from the key itself, by
length. -/
theorem enc_ne_self (k : String) : ("encrypted_" ++ k) ≠ k := by
  intro h
  have hd : ("encrypted_" ++ k).data = "encrypted_".data ++ k.data := by
    cases k with | mk d => rfl
  have h2 := congrArg (fun s => s.data.length) h
  simp only [hd, List.length_append] at h2
  have h10 : "encrypted_".data.length = 10 := rfl
  rw [h10] at h2
  omega

/-! # Claim C1: redirect resolution order -/

/-- Record used by the concrete scan-world checks. -/
def rec1 : QRRecord :=
  { id := "q1", name := "Demo", originalText := "https://example.org",
    logoPath := none, scanCount := 0, createdAt := 0, lastScanned := none }

/-- Scan world with a remote miss, an encrypted-tier clean miss and a
legacy-tier hit. -/
def cexWorldLegacy : ScanWorld :=
  { qrId := "q1", firebaseAvailable := true, firebaseResult := .ok none,
    securityUtilsAvailable := true, encryptedResult := .ok none,
    legacyResult := .ok (some rec1), fallbackData := none }

/-- Claim C1, counterexample: with a remote miss and a clean encrypted
miss, the resolver never consults the legacy unencrypted tier — it is
reached only from the catch handler of the encrypted access — so a
legacy-tier hit is lost and resolution fails, contradicting the claim
that a miss at one source does not abort the four-source sequence. -/
theorem resolution_order_cex :
    cexWorldLegacy.legacyResult = Except.ok (some rec1)
    ∧ resolveQRData cexWorldLegacy = none := by
  constructor
  · rfl
  · rfl

/-- Claim C1, amended: the resolver attempts remote, then encrypted,
then — only when the encrypted access throws, not on a clean miss — the
legacy unencrypted tier, then the URL-embedded payload; the first hit
wins, a remote failure or miss does not abort the sequence, given a
remote miss and an encrypted hit the encrypted record is returned with
tiers three and four never consulted, and a record reconstructed from
the embedded payload has scanCount defaulted to zero. -/
theorem resolution_order_amended :
    ∀ (w : ScanWorld) (r : QRRecord) (p : FallbackPayload),
      (w.firebaseAvailable = true → w.firebaseResult = .ok (some r) →
        resolveQRData w = some (r, .firebase))
      ∧ (tier1Result w = none → w.securityUtilsAvailable = true →
          w.encryptedResult = .ok (some r) →
          resolveQRData w = some (r, .encrypted))
      ∧ (tier1Result w = none → w.securityUtilsAvailable = true →
          w.encryptedResult = .error () → w.legacyResult = .ok (some r) →
          resolveQRData w = some (r, .legacy))
      ∧ (tier1Result w = none → tier23Result w = none →
          w.fallbackData = some (.ok p) →
          resolveQRData w = some (payloadRecord w.qrId p, .urlFallback)
          ∧ (payloadRecord w.qrId p).scanCount = 0) := by
  intro w r p
  refine ⟨?_, ?_, ?_, ?_⟩
  · intro ha hr
    simp [resolveQRData, tier1Result, ha, hr]
  · intro h1 hs he
    simp [resolveQRData, h1, tier23Result, hs, he]
  · intro h1 hs he hl
    simp [resolveQRData, h1, tier23Result, hs, he, hl]
  · intro h1 h23 hf
    exact ⟨by simp [resolveQRData, h1, h23, hf], rfl⟩

/-- Claim C1, witness: the amended order theorem applied to a world with
a remote miss and an encrypted hit. -/
theorem resolution_order_amended_witness :
    resolveQRData
      { qrId := "q1", firebaseAvailable := true, firebaseResult := .ok none,
        securityUtilsAvailable := true, encryptedResult := .ok (some rec1),
        legacyResult := .error (), fallbackData := none }
      = some (rec1, .encrypted) :=
  ((resolution_order_amended
    { qrId := "q1", firebaseAvailable := true, firebaseResult := .ok none,
      securityUtilsAvailable := true, encryptedResult := .ok (some rec1),
      legacyResult := .error (), fallbackData := none }
    rec1 ⟨"", "", 0⟩).2.1 (by decide) rfl rfl)

/-! # Claim C2: tier selection against the connectivity signal -/

/-- Claim C2, counterexample: with the firebase global defined and
window.database set but the live connectivity signal reporting
disconnected, every operation still routes to the remote tier — the
branch condition never consults the connectivity flags. -/
theorem tier_selection_cex :
    createQRCodeTier ⟨true, true, true, false⟩ = .remote
    ∧ getQRCodeTier ⟨true, true, true, false⟩ = .remote
    ∧ incrementScanCountTier ⟨true, true, true, false⟩ = .remote
    ∧ getRecentQRCodesTier ⟨true, true, true, false⟩ = .remote
    ∧ firebaseStatusIsAvailable ⟨true, true, true, false⟩ = false
    ∧ firebaseStatusGetStatus ⟨true, true, true, false⟩ = "disconnected" := by
  decide

/-- Claim C2, amended: every tiered-store operation re-evaluates its
branch condition at call time on the current state — there is no cached
decision — but the condition is that the firebase global is defined and
window.database is set, not the live connectivity signal; all four
operations use the same condition. -/
theorem tier_selection_amended :
    ∀ s : ConnState,
      (createQRCodeTier s = .remote ↔ s.firebaseDefined = true ∧ s.windowDatabase = true)
      ∧ getQRCodeTier s = createQRCodeTier s
      ∧ incrementScanCountTier s = createQRCodeTier s
      ∧ getRecentQRCodesTier s = createQRCodeTier s := by
  intro s
  obtain ⟨a, b, c, d⟩ := s
  revert a b c d
  decide

/-- Claim C2, witness: the amended tier-selection theorem applied at a
state that is defined and set but otherwise disconnected. -/
theorem tier_selection_amended_witness :
    createQRCodeTier ⟨true, true, false, false⟩ = .remote :=
  (tier_selection_amended ⟨true, true, false, false⟩).1.mpr ⟨rfl, rfl⟩

/-! # Claim C3: scan-count increment failures are swallowed -/

/-- Claim C3: once resolution finds a record, the outcome of the
scan-count increment attempt is irrelevant — the transaction dispatches
on the record text either way, the increment error is never surfaced as
the error page and never aborts the scan. -/
theorem increment_failure_swallowed :
    ∀ (w : ScanWorld) (incr incr' : Except Unit Unit)
      (parse : String → Option URLParts) (confirm : Bool)
      (r : QRRecord) (src : DataSource),
      resolveQRData w = some (r, src) →
      resolverInit w incr parse confirm
        = .dispatched (redirectToOriginal parse confirm r.originalText)
      ∧ resolverInit w incr parse confirm = resolverInit w incr' parse confirm := by
  intro w incr incr' parse confirm r src h
  constructor
  · cases incr <;> simp [resolverInit, h]
  · cases incr <;> cases incr' <;> simp [resolverInit, h]

/-- Scan world with a remote miss and an encrypted hit, used by the
concrete increment-failure check. -/
def cexWorldFound : ScanWorld :=
  { qrId := "q1", firebaseAvailable := true, firebaseResult := .ok none,
    securityUtilsAvailable := true, encryptedResult := .ok (some rec1),
    legacyResult := .ok none, fallbackData := none }

/-- Claim C3, witness: the swallowing theorem applied to a found record
with a failing increment. -/
theorem increment_failure_swallowed_witness :
    resolverInit cexWorldFound (Except.error ()) jsParseURL false
      = .dispatched (redirectToOriginal jsParseURL false rec1.originalText)
    ∧ resolverInit cexWorldFound (Except.error ()) jsParseURL false
      = resolverInit cexWorldFound (Except.ok ()) jsParseURL false :=
  increment_failure_swallowed cexWorldFound (Except.error ()) (Except.ok ())
    jsParseURL false rec1 .encrypted (by decide)

/-! # Claim C4: characterization of navigable strings -/

/-- Conjunction of negated predicates over a list equals the negated
disjunction. -/
theorem all_not_eq_not_any (l : List String) (f : String → Bool) :
    l.all (fun x => !(f x)) = !(l.any f) := by
  induction l with
  | nil => rfl
  | cons a t ih => simp [List.all_cons, List.any_cons, ih]

/-- Navigability predicate written from the words of the claim: either
the string parses with protocol http or https and its lowered form
contains none of the five blocked scheme substrings, or it fails to
parse, contains one of the common TLD or www markers, and parses once
the https prefix is added. -/
def isValidURLSpec (parse : String → Option URLParts) (s : String) : Bool :=
  match parse s with
  | some url =>
      (url.protocol == "http:" || url.protocol == "https:")
      && ["javascript:", "data:", "vbscript:", "file:", "ftp:"].all
          (fun pattern => !(containsSubstr (lowerStr s) pattern))
  | none =>
      (containsSubstr s ".com" || containsSubstr s ".org"
        || containsSubstr s ".net" || containsSubstr s "www.")
      && (parse ("https://" ++ s)).isSome

/-- Claim C4: for every parse function and string, the resolver's
isValidURL agrees with the claim's characterization of navigable
strings. -/
theorem isValidURL_matches_claim :
    ∀ (parse : String → Option URLParts) (s : String),
      isValidURL parse s = isValidURLSpec parse s := by
  intro parse s
  unfold isValidURL isValidURLSpec
  cases hp : parse s with
  | some url =>
      by_cases hproto : (url.protocol == "http:" || url.protocol == "https:") = true
      · rw [all_not_eq_not_any]
        by_cases hd : (["javascript:", "data:", "vbscript:", "file:", "ftp:"].any
            (fun pattern => containsSubstr (lowerStr s) pattern)) = true
        · simp [hproto, hd]
        · simp [hproto, Bool.not_eq_true _ ▸ hd]
      · have hp2 : (url.protocol == "http:" || url.protocol == "https:") = false :=
          Bool.not_eq_true _ ▸ hproto
        simp [hp2]
  | none =>
      by_cases htld : (containsSubstr s ".com" || containsSubstr s ".org"
          || containsSubstr s ".net" || containsSubstr s "www.") = true
      · cases hp2 : parse ("https://" ++ s) with
        | some u2 => simp [htld, hp2]
        | none => simp [htld, hp2]
      · have htld2 := Bool.not_eq_true _ ▸ htld
        simp [htld2]

/-! # Claim C5: domain allow-list policy -/

/-- Claim C5: a navigable allow-listed destination navigates at once
with no confirmation, a navigable non-allow-listed destination requires
the confirmation and falls through to the content display on decline;
concretely the meet.google.com link navigates immediately and the
evil-example.com link prompts first. -/
theorem domain_allowlist_policy :
    ∀ (parse : String → Option URLParts) (confirm : Bool) (s : String),
      (isValidURL parse s = true → isWhitelistedDomain parse s = true →
        redirectToOriginal parse confirm s = .navigated false)
      ∧ (isValidURL parse s = true → isWhitelistedDomain parse s = false →
        redirectToOriginal parse confirm s
          = if confirm then .navigated true else .displayedText)
      ∧ redirectToOriginal jsParseURL confirm "https://meet.google.com/abc-defg-hij"
          = .navigated false
      ∧ redirectToOriginal jsParseURL confirm "https://evil-example.com/phish"
          = (if confirm then .navigated true else .displayedText) := by
  intro parse confirm s
  refine ⟨?_, ?_, ?_, ?_⟩
  · intro hv hw
    simp [redirectToOriginal, hv, hw]
  · intro hv hw
    cases confirm <;> simp [redirectToOriginal, hv, hw]
  · cases confirm <;> decide
  · cases confirm <;> decide

/-- Claim C5, witness: the policy theorem applied to an allow-listed
zoom.us link with its two hypotheses checked concretely. -/
theorem domain_allowlist_policy_witness :
    redirectToOriginal jsParseURL false "https://zoom.us/j/5" = .navigated false :=
  (domain_allowlist_policy jsParseURL false "https://zoom.us/j/5").1
    (by decide) (by decide)

/-! # Claim C6: create-input validation -/

/-- Claim C6, counterexample: a name that contains a script tag but is
longer than one hundred characters is rejected by the length check
before the blacklist runs, so the rejection is the length error, not a
security error — the claim that every input containing a blacklisted
pattern is rejected with a security error fails on it. -/
theorem security_error_kind_cex :
    maliciousMatch ("<script>" ++ String.mk (List.replicate 93 'a')) = true
    ∧ validateQRInput "hello" ("<script>" ++ String.mk (List.replicate 93 'a'))
        = .error .nameTooLong
    ∧ validateQRInput "hello" ("<script>" ++ String.mk (List.replicate 93 'a'))
        ≠ .error .invalidName
    ∧ validateQRInput "hello" ("<script>" ++ String.mk (List.replicate 93 'a'))
        ≠ .error .invalidText := by
  refine ⟨by decide, by decide, by decide, by decide⟩

/-- Claim C6, amended: validateCreateInput accepts exactly when text is
nonempty after trim and at most four thousand characters, name is
nonempty after trim and at most one hundred characters, and neither
field matches the blacklist; every input matching the blacklist in
either field is rejected regardless of letter case, and the rejection is
the security error for the offending field whenever the emptiness and
length checks pass (otherwise the earlier length error fires first). -/
theorem validateQRInput_amended :
    ∀ text name : String,
      (validateQRInput text name = .ok () ↔
        ((strTrim text).length ≠ 0 ∧ text.length ≤ 4000
          ∧ (strTrim name).length ≠ 0 ∧ name.length ≤ 100
          ∧ maliciousMatch text = false ∧ maliciousMatch name = false))
      ∧ (maliciousMatch text = true ∨ maliciousMatch name = true →
          validateQRInput text name ≠ .ok ())
      ∧ ((strTrim text).length ≠ 0 → text.length ≤ 4000 →
          (strTrim name).length ≠ 0 → name.length ≤ 100 →
          maliciousMatch text = true →
          validateQRInput text name = .error .invalidText)
      ∧ ((strTrim text).length ≠ 0 → text.length ≤ 4000 →
          (strTrim name).length ≠ 0 → name.length ≤ 100 →
          maliciousMatch text = false → maliciousMatch name = true →
          validateQRInput text name = .error .invalidName) := by
  intro text name
  refine ⟨?_, ?_, ?_, ?_⟩
  · unfold validateQRInput
    split_ifs with h1 h2 h3 h4 h5 h6 <;>
      simp_all [decide_eq_true_eq]
  · intro hmal hok
    unfold validateQRInput at hok
    split_ifs at hok with h1 h2 h3 h4 h5 h6
    rcases hmal with hm | hm
    · exact absurd hm (by simp [h5])
    · exact absurd hm (by simp [h6])
  · intro ht1 ht2 hn1 hn2 hm
    unfold validateQRInput
    split_ifs with h1 h2 h3 h4 <;> simp_all [decide_eq_true_eq] <;> omega
  · intro ht1 ht2 hn1 hn2 hmt hmn
    unfold validateQRInput
    split_ifs with h1 h2 h3 h4 h5 <;> simp_all [decide_eq_true_eq] <;> omega

/-- Claim C6, witness: the amended validation theorem applied to a valid
input and to an input with a mixed-case injection pattern in the text. -/
theorem validateQRInput_amended_witness :
    validateQRInput "https://example.org" "Demo" = .ok ()
    ∧ validateQRInput "JaVaScRiPt:alert(1)" "Demo" = .error .invalidText :=
  ⟨(validateQRInput_amended "https://example.org" "Demo").1.mpr
      ⟨by decide, by decide, by decide, by decide, by decide, by decide⟩,
    (validateQRInput_amended "JaVaScRiPt:alert(1)" "Demo").2.2.1
      (by decide) (by decide) (by decide) (by decide) (by decide)⟩

/-! # Claim C7: vault round-trip -/

/-- Key slot after getOrCreateKey holds exactly the key the call
returned. -/
theorem getOrCreateKey_persists (st : Store) (f : String) :
    lsGet (getOrCreateKey st f).2 "app_crypto_key_v2"
      = some (getOrCreateKey st f).1 := by
  unfold getOrCreateKey
  cases h : lsGet st "app_crypto_key_v2" with
  | some kd => simp [h]
  | none => simp [h, lsGet_set_self]

/-- Claim C7: under the host-primitive round-trip laws (JSON, text
encoding, AES-GCM, base64) and a twelve-byte nonce, setItem followed by
getItem returns the stored value, with the getItem call re-importing the
device key from its persisted slot — the two calls share no state except
localStorage. -/
theorem vault_roundtrip {α β : Type} (env : CryptoEnv α β)
    (hser : ∀ v, env.deser (env.ser v) = some v)
    (hstr : ∀ s, env.strDecode (env.strEncode s) = s)
    (hdec : ∀ kd nonce d, env.dec kd nonce (env.enc kd nonce d) = some d)
    (hb64 : ∀ bs, env.b64d (env.b64e bs) = some bs)
    (freshKey freshKey2 : String) (iv iv2 : List β) (hiv : iv.length = 12)
    (st : Store) (k : String) (v : α) :
    (cmGetItem env freshKey2 iv2 (cmSetItem env freshKey iv st k v) k).1 = some v := by
  have hgkp := getOrCreateKey_persists st freshKey
  have h1 : lsGet (cmSetItem env freshKey iv st k v) ("encrypted_" ++ k)
      = some (env.b64e (iv ++ env.enc (getOrCreateKey st freshKey).1 iv
          (env.strEncode (env.ser v)))) := by
    unfold cmSetItem
    exact lsGet_set_self _ _ _
  have h2 : lsGet (cmSetItem env freshKey iv st k v) "app_crypto_key_v2"
      = some (getOrCreateKey st freshKey).1 := by
    unfold cmSetItem
    rw [lsGet_set_ne _ _ _ _ (enc_ne_keyslot k).symm]
    exact hgkp
  have hgk2 : getOrCreateKey (cmSetItem env freshKey iv st k v) freshKey2
      = ((getOrCreateKey st freshKey).1, cmSetItem env freshKey iv st k v) := by
    conv_lhs => unfold getOrCreateKey
    rw [h2]
  have ht : (iv ++ env.enc (getOrCreateKey st freshKey).1 iv
      (env.strEncode (env.ser v))).take 12
      = iv := by
    rw [← hiv]
    exact List.take_left _ _
  have hd : (iv ++ env.enc (getOrCreateKey st freshKey).1 iv
      (env.strEncode (env.ser v))).drop 12
      = env.enc (getOrCreateKey st freshKey).1 iv (env.strEncode (env.ser v)) := by
    rw [← hiv]
    exact List.drop_left _ _
  unfold cmGetItem
  rw [h1]
  simp only [hgk2, hb64, ht, hd, hdec, hstr, hser]

/-- Concrete host-primitive instance for witnesses: values are strings,
bytes are characters, every primitive is the corresponding identity
embedding, so each round-trip law holds definitionally. -/
def idCryptoEnv : CryptoEnv String Char :=
  { ser := fun v => v, deser := fun s => some s,
    strEncode := fun s => s.data, strDecode := fun l => String.mk l,
    enc := fun _ _ d => d, dec := fun _ _ c => some c,
    b64e := fun bs => String.mk bs, b64d := fun s => some s.data }

/-- Claim C7, witness: the round-trip theorem applied to the identity
instance, a fresh twelve-byte nonce and a concrete store, key and
value. -/
theorem vault_roundtrip_witness :
    (cmGetItem idCryptoEnv "key2"
      [] (cmSetItem idCryptoEnv "key1" (List.replicate 12 'n') [] "qr-codes" "hello")
      "qr-codes").1 = some "hello" :=
  vault_roundtrip idCryptoEnv (fun _ => rfl)
    (fun s => by cases s with | mk d => rfl) (fun _ _ _ => rfl) (fun _ => rfl)
    "key1" "key2" (List.replicate 12 'n') [] (by decide) [] "qr-codes" "hello"

/-! # Claim C8: legacy-migration idempotence -/

/-- Claim C8: on a store with a legacy plaintext slot and no encrypted
slot, getItem returns the parsed legacy data, leaves exactly one
encrypted slot and no legacy slot, and a second getItem returns the
same data while changing the store not at all. -/
theorem legacy_migration_idempotent {α β : Type} (env : CryptoEnv α β)
    (hser : ∀ v, env.deser (env.ser v) = some v)
    (hstr : ∀ s, env.strDecode (env.strEncode s) = s)
    (hdec : ∀ kd nonce d, env.dec kd nonce (env.enc kd nonce d) = some d)
    (hb64 : ∀ bs, env.b64d (env.b64e bs) = some bs)
    (freshKey freshKey2 : String) (iv iv2 : List β) (hiv : iv.length = 12)
    (st : Store) (k regular : String) (d : α)
    (hk : k ≠ "app_crypto_key_v2")
    (henc : lsGet st ("encrypted_" ++ k) = none)
    (hleg : lsGet st k = some regular)
    (hd : env.deser regular = some d) :
    (cmGetItem env freshKey iv st k).1 = some d
    ∧ (((cmGetItem env freshKey iv st k).2).filter
        (fun p => p.1 == ("encrypted_" ++ k))).length = 1
    ∧ lsGet (cmGetItem env freshKey iv st k).2 k = none
    ∧ cmGetItem env freshKey2 iv2 (cmGetItem env freshKey iv st k).2 k
        = (some d, (cmGetItem env freshKey iv st k).2) := by
  have hr1 : cmGetItem env freshKey iv st k
      = (some d, lsRemove (cmSetItem env freshKey iv st k d) k) := by
    unfold cmGetItem
    rw [henc, hleg]
    show (match env.deser regular with
      | none => ((none : Option α), st)
      | some dd => (some dd, lsRemove (cmSetItem env freshKey iv st k dd) k)) = _
    rw [hd]
  have hA : lsGet (lsRemove (cmSetItem env freshKey iv st k d) k) ("encrypted_" ++ k)
      = some (env.b64e (iv ++ env.enc (getOrCreateKey st freshKey).1 iv
          (env.strEncode (env.ser d)))) := by
    rw [lsGet_remove_ne _ _ _ (enc_ne_self k)]
    unfold cmSetItem
    exact lsGet_set_self _ _ _
  have hB : lsGet (lsRemove (cmSetItem env freshKey iv st k d) k) "app_crypto_key_v2"
      = some (getOrCreateKey st freshKey).1 := by
    rw [lsGet_remove_ne _ _ _ (Ne.symm hk)]
    unfold cmSetItem
    rw [lsGet_set_ne _ _ _ _ (enc_ne_keyslot k).symm]
    exact getOrCreateKey_persists st freshKey
  have hC : ((lsRemove (cmSetItem env freshKey iv st k d) k).filter
      (fun p => p.1 == ("encrypted_" ++ k))).length = 1 := by
    unfold lsRemove
    rw [filter_filter_ne _ _ _ (enc_ne_self k)]
    unfold cmSetItem
    rw [filter_set_self]
    rfl
  have hD : lsGet (lsRemove (cmSetItem env freshKey iv st k d) k) k = none :=
    lsGet_remove_self _ k
  have hgk2 : getOrCreateKey (lsRemove (cmSetItem env freshKey iv st k d) k) freshKey2
      = ((getOrCreateKey st freshKey).1,
          lsRemove (cmSetItem env freshKey iv st k d) k) := by
    conv_lhs => unfold getOrCreateKey
    rw [hB]
  have ht : (iv ++ env.enc (getOrCreateKey st freshKey).1 iv
      (env.strEncode (env.ser d))).take 12 = iv := by
    rw [← hiv]
    exact List.take_left _ _
  have htd : (iv ++ env.enc (getOrCreateKey st freshKey).1 iv
      (env.strEncode (env.ser d))).drop 12
      = env.enc (getOrCreateKey st freshKey).1 iv (env.strEncode (env.ser d)) := by
    rw [← hiv]
    exact List.drop_left _ _
  have hE : cmGetItem env freshKey2 iv2 (lsRemove (cmSetItem env freshKey iv st k d) k) k
      = (some d, lsRemove (cmSetItem env freshKey iv st k d) k) := by
    unfold cmGetItem
    rw [hA]
    simp only [hgk2, hb64, ht, htd, hdec, hstr, hser]
  rw [hr1]
  exact ⟨rfl, hC, hD, hE⟩

/-- Claim C8, witness: the migration theorem applied to the identity
instance on a store holding only a legacy plaintext slot. -/
theorem legacy_migration_idempotent_witness :
    (cmGetItem idCryptoEnv "key1" (List.replicate 12 'n')
        [("qr-codes", "data")] "qr-codes").1 = some "data"
    ∧ (((cmGetItem idCryptoEnv "key1" (List.replicate 12 'n')
        [("qr-codes", "data")] "qr-codes").2).filter
          (fun p => p.1 == ("encrypted_" ++ "qr-codes"))).length = 1
    ∧ lsGet (cmGetItem idCryptoEnv "key1" (List.replicate 12 'n')
        [("qr-codes", "data")] "qr-codes").2 "qr-codes" = none
    ∧ cmGetItem idCryptoEnv "key2" []
        (cmGetItem idCryptoEnv "key1" (List.replicate 12 'n')
          [("qr-codes", "data")] "qr-codes").2 "qr-codes"
        = (some "data",
            (cmGetItem idCryptoEnv "key1" (List.replicate 12 'n')
              [("qr-codes", "data")] "qr-codes").2) :=
  legacy_migration_idempotent idCryptoEnv (fun _ => rfl)
    (fun s => by cases s with | mk dd => rfl) (fun _ _ _ => rfl) (fun _ => rfl)
    "key1" "key2" (List.replicate 12 'n') [] (by decide)
    [("qr-codes", "data")] "qr-codes" "data" "data"
    (by decide) (by decide) (by decide) rfl

/-! # Claim C10: local increment on a missing id -/

/-- Instance making stores comparable in concrete checks. -/
instance : DecidableEq Store := by
  unfold Store
  infer_instance

/-- Record-map host-primitive instance for the concrete migration
check: the only parseable serialized form is the fixed string standing
for the empty record map. -/
def cexRecEnv : CryptoEnv RecordMap Char :=
  { ser := fun _ => "X", deser := fun s => if s == "X" then some [] else none,
    strEncode := fun s => s.data, strDecode := fun l => String.mk l,
    enc := fun _ _ dd => dd, dec := fun _ _ c => some c,
    b64e := fun bs => String.mk bs, b64d := fun s => some s.data }

/-- Store holding only a legacy plaintext qr-codes slot. -/
def cexLegacyStore : Store := [("qr-codes", "X")]

/-- Claim C10, counterexample: on a store still holding the record map
in the legacy plaintext slot, incrementScanCount for a missing id does
change the stored state — the vault read it performs runs the one-time
legacy migration, re-encrypting the map and deleting the legacy slot —
so the claim that nothing is written back to storage fails, even though
the increment itself writes nothing. -/
theorem increment_missing_migration_cex :
    mapLookup (((cmGetItem cexRecEnv "fk" (List.replicate 12 'n')
        cexLegacyStore "qr-codes").1).getD []) "missing" = none
    ∧ incrementScanCountLocal cexRecEnv "fk" (List.replicate 12 'n') 5
        cexLegacyStore "missing" ≠ cexLegacyStore := by
  exact ⟨by decide, by decide⟩

/-- State left by cmGetItem equals the input store whenever the key slot
and the encrypted slot are both present. -/
theorem cmGetItem_state_of_present {α β : Type} (env : CryptoEnv α β)
    (f : String) (iv : List β) (st : Store) (k kd e : String)
    (hk : lsGet st "app_crypto_key_v2" = some kd)
    (he : lsGet st ("encrypted_" ++ k) = some e) :
    (cmGetItem env f iv st k).2 = st := by
  have hgk : getOrCreateKey st f = (kd, st) := by
    unfold getOrCreateKey
    rw [hk]
  unfold cmGetItem
  rw [he]
  simp only [hgk]
  cases hcb : env.b64d e with
  | none => simp [hcb]
  | some combined =>
      simp only [hcb]
      cases hdc : env.dec kd (List.take 12 combined) (List.drop 12 combined) with
      | none => simp [hdc]
      | some plain =>
          simp only [hdc]
          cases hds : env.deser (env.strDecode plain) with
          | none => simp [hds]
          | some v => simp [hds]

/-- Claim C10, amended: on the local tier, incrementScanCount for an id
with no stored record performs no write of its own — the resulting
storage is exactly what the embedded vault read leaves behind, no record
is created and no record map is written back; in the normal state where
the device key and the encrypted qr-codes slot are present, storage is
entirely unchanged.  The only possible storage change is the read
path's one-time legacy migration of the same map. -/
theorem increment_missing_id_amended {β : Type} (env : CryptoEnv RecordMap β)
    (freshKey : String) (iv : List β) (now : Nat) (st : Store) (qrId : String)
    (h : mapLookup (((cmGetItem env freshKey iv st "qr-codes").1).getD []) qrId
      = none) :
    incrementScanCountLocal env freshKey iv now st qrId
      = (cmGetItem env freshKey iv st "qr-codes").2
    ∧ ((lsGet st "app_crypto_key_v2").isSome = true →
        (lsGet st ("encrypted_" ++ "qr-codes")).isSome = true →
        incrementScanCountLocal env freshKey iv now st qrId = st) := by
  have hmain : incrementScanCountLocal env freshKey iv now st qrId
      = (cmGetItem env freshKey iv st "qr-codes").2 := by
    unfold incrementScanCountLocal
    simp only [h]
  refine ⟨hmain, fun hkey henc => ?_⟩
  obtain ⟨kd, hk⟩ := Option.isSome_iff_exists.mp hkey
  obtain ⟨e, he⟩ := Option.isSome_iff_exists.mp henc
  rw [hmain]
  exact cmGetItem_state_of_present env freshKey iv st "qr-codes" kd e hk he

/-- Store in the normal encrypted state used by the concrete
missing-id check. -/
def cexEncStore : Store := [("encrypted_qr-codes", "E"), ("app_crypto_key_v2", "K")]

/-- Claim C10, witness: the amended theorem applied to a store in the
normal encrypted state, where the increment for a missing id leaves
storage untouched. -/
theorem increment_missing_id_amended_witness :
    incrementScanCountLocal cexRecEnv "fk" (List.replicate 12 'n') 5
      cexEncStore "missing" = cexEncStore :=
  (increment_missing_id_amended cexRecEnv "fk" (List.replicate 12 'n') 5
    cexEncStore "missing" (by decide)).2 (by decide) (by decide)

/-! # Claim C9: sliding-window rate limiter -/

/-- Reading back the user list just written to the requests map. -/
theorem rlGet_set_self (st : RLState) (uid : String) (l : List Nat) :
    rlGet (rlSet st uid l) uid = l := by
  simp [rlGet, rlSet, List.find?_cons]

/-- Admission run: starting from a state whose stored list for the user
is pre, a sequence of calls that fits under the limit and stays inside
the window of every earlier timestamp is admitted in full, and the
stored list afterwards is the concatenation. -/
theorem runCalls_admits (uid : String) :
    ∀ (ts pre : List Nat) (st : RLState),
      rlGet st uid = pre →
      pre.length + ts.length ≤ 10 →
      (∀ t ∈ ts, ∀ p ∈ pre, t - p < 60000) →
      ts.Pairwise (fun a b => b - a < 60000) →
      (runCalls uid ts st).1 = List.replicate ts.length true
      ∧ rlGet (runCalls uid ts st).2 uid = pre ++ ts := by
  intro ts
  induction ts with
  | nil =>
      intro pre st hst _ _ _
      exact ⟨rfl, by simpa using hst⟩
  | cons t ts ih =>
      intro pre st hst hlen hrec hpair
      have hfilter : pre.filter (fun time => decide (t - time < 60000)) = pre := by
        apply List.filter_eq_self.mpr
        intro p hp
        exact decide_eq_true (hrec t (by simp) p hp)
      have hstep : canMakeRequest st t uid = (true, rlSet st uid (pre ++ [t])) := by
        simp only [canMakeRequest, hst, hfilter]
        have hlt : ¬ pre.length ≥ 10 := by
          simp only [List.length_cons] at hlen
          omega
        rw [if_neg hlt]
      have hst' : rlGet (rlSet st uid (pre ++ [t])) uid = pre ++ [t] :=
        rlGet_set_self st uid (pre ++ [t])
      have hlen' : (pre ++ [t]).length + ts.length ≤ 10 := by
        simp only [List.length_append, List.length_cons, List.length_nil]
        simp only [List.length_cons] at hlen
        omega
      have hpairhead := (List.pairwise_cons.mp hpair).1
      have hrec' : ∀ t' ∈ ts, ∀ p ∈ pre ++ [t], t' - p < 60000 := by
        intro t' ht' p hp
        rcases List.mem_append.mp hp with hp1 | hp2
        · exact hrec t' (by simp [ht']) p hp1
        · rw [List.mem_singleton.mp hp2]
          exact hpairhead t' ht'
      have hpair' := (List.pairwise_cons.mp hpair).2
      obtain ⟨ihres, ihst⟩ := ih (pre ++ [t]) (rlSet st uid (pre ++ [t])) hst' hlen' hrec' hpair'
      constructor
      · show (runCalls uid (t :: ts) st).1 = _
        unfold runCalls
        rw [hstep]
        simp only [List.replicate_succ]
        exact congrArg (true :: ·) ihres
      · show rlGet (runCalls uid (t :: ts) st).2 uid = _
        unfold runCalls
        rw [hstep]
        rw [ihst]
        simp

/-- Claim C9: with the sixty-second window and the limit of ten keyed by
caller identity, ten admitted calls inside one window are all admitted
from the empty state, the eleventh call inside the window is rejected
and records no timestamp (the state is returned untouched), and once the
window has elapsed past every admission the full capacity of ten is
restored and the next call is admitted. -/
theorem rate_limiter_window :
    ∀ (uid : String) (ts : List Nat) (t11 : Nat),
      ts.length = 10 →
      ts.Pairwise (fun a b => b - a < 60000) →
      (∀ t ∈ ts, t11 - t < 60000) →
      (runCalls uid ts []).1 = List.replicate 10 true
      ∧ (canMakeRequest (runCalls uid ts []).2 t11 uid).1 = false
      ∧ (canMakeRequest (runCalls uid ts []).2 t11 uid).2 = (runCalls uid ts []).2
      ∧ (∀ t' : Nat, (∀ t ∈ ts, 60000 ≤ t' - t) →
          getRemainingRequests (runCalls uid ts []).2 t' uid = 10
          ∧ (canMakeRequest (runCalls uid ts []).2 t' uid).1 = true) := by
  intro uid ts t11 hlen hpair hwin
  obtain ⟨hres, hstored⟩ := runCalls_admits uid ts [] [] rfl
    (by simp [hlen])
    (fun t _ p hp => absurd hp (List.not_mem_nil p)) hpair
  have hst10 : rlGet (runCalls uid ts []).2 uid = ts := by simpa using hstored
  have hfilter11 : ts.filter (fun time => decide (t11 - time < 60000)) = ts :=
    List.filter_eq_self.mpr (fun t ht => decide_eq_true (hwin t ht))
  have hreject : canMakeRequest (runCalls uid ts []).2 t11 uid
      = (false, (runCalls uid ts []).2) := by
    simp only [canMakeRequest, hst10, hfilter11, hlen]
    rw [if_pos (by omega)]
  refine ⟨by rw [hres, hlen], by rw [hreject], by rw [hreject], ?_⟩
  intro t' hold
  have hfilter' : ts.filter (fun time => decide (t' - time < 60000)) = [] := by
    apply List.filter_eq_nil_iff.mpr
    intro t ht
    have := hold t ht
    simp only [decide_eq_true_eq]
    omega
  constructor
  · simp only [getRemainingRequests, hst10, hfilter']
    rfl
  · simp only [canMakeRequest, hst10, hfilter']
    rw [if_neg (by simp)]

/-- Claim C9, witness: the window theorem applied to ten calls at
consecutive times, the rejected eleventh at time ten, and the restored
capacity at time seventy thousand. -/
theorem rate_limiter_window_witness :
    (canMakeRequest (runCalls "anonymous" [0, 1, 2, 3, 4, 5, 6, 7, 8, 9] []).2
      10 "anonymous").1 = false
    ∧ getRemainingRequests (runCalls "anonymous" [0, 1, 2, 3, 4, 5, 6, 7, 8, 9] []).2
        70000 "anonymous" = 10 :=
  ⟨(rate_limiter_window "anonymous" [0, 1, 2, 3, 4, 5, 6, 7, 8, 9] 10
      (by decide) (by decide) (by decide)).2.1,
    ((rate_limiter_window "anonymous" [0, 1, 2, 3, 4, 5, 6, 7, 8, 9] 10
      (by decide) (by decide) (by decide)).2.2.2 70000 (by decide)).1⟩
